import Mathlib

/-!
# Shallow embedding of the CHIP-8 emulator core (chip-8.hpp / chip-8.cpp)

The machine state mirrors the private data of `class Chip8`:
8-bit cells (`memory`, `V`, `gfx`, `key`, timers) and 16-bit cells
(`I`, `pc`, `stack` entries) are modelled as `Nat` with explicit
`% 256` / `% 65536` reductions exactly where the C++ unsigned
arithmetic wraps.  Fixed-size arrays are modelled as total functions
`Nat → Nat`; every in-source array access appears as an application of
the corresponding function at the same index expression, so an index
outside the C++ array bound is visible as an application at an address
`≥` the array size.  Bit masks of the source are written in `/ %` form:
`op & 0xF000` (compared against `0xN000`) becomes `op / 4096 % 16`
(compared against `0xN`), `op & 0x0F00 >> 8` becomes `op / 256 % 16`,
`op & 0x00F0 >> 4` becomes `op / 16 % 16`, `op & 0x0FFF` becomes
`op % 4096`, and `op & 0x00FF` becomes `op % 256`.
-/

/-- Pointwise array update: `f[i] = v` on an array modelled as a function. -/
def upd (f : Nat → Nat) (i v : Nat) : Nat → Nat :=
  fun j => if j = i then v else f j

/-- The machine state: the data members of `class Chip8`. -/
structure Chip8 where
  loaded_rom_size : Nat
  draw_flag : Bool
  memory : Nat → Nat
  V : Nat → Nat
  I : Nat
  pc : Nat
  stack : Nat → Nat
  sp : Nat
  delayTimer : Nat
  soundTimer : Nat
  gfx : Nat → Nat
  key : Nat → Nat

/-- The 80-byte font table `sprite_font` (5 bytes per hex digit 0-F). -/
def sprite_font : List Nat :=
  [0xF0, 0x90, 0x90, 0x90, 0xF0,
   0x20, 0x60, 0x20, 0x20, 0x70,
   0xF0, 0x10, 0xF0, 0x80, 0xF0,
   0xF0, 0x10, 0xF0, 0x10, 0xF0,
   0x90, 0x90, 0xF0, 0x10, 0x10,
   0xF0, 0x80, 0xF0, 0x10, 0xF0,
   0xF0, 0x80, 0xF0, 0x90, 0xF0,
   0xF0, 0x10, 0x20, 0x40, 0x40,
   0xF0, 0x90, 0xF0, 0x90, 0xF0,
   0xF0, 0x90, 0xF0, 0x10, 0xF0,
   0xF0, 0x90, 0xF0, 0x90, 0x90,
   0xE0, 0x90, 0xE0, 0x90, 0xE0,
   0xF0, 0x80, 0x80, 0x80, 0xF0,
   0xE0, 0x90, 0x90, 0x90, 0xE0,
   0xF0, 0x80, 0xF0, 0x80, 0xF0,
   0xF0, 0x80, 0xF0, 0x80, 0x80]

/-- The constructor `Chip8::Chip8`: zero-initialized members, `pc = 0x200`,
followed by `copy_sprite_font_into_memory()` which copies the 80 font bytes
to addresses `0x50..0x9F`. -/
def Chip8.init : Chip8 where
  loaded_rom_size := 0
  draw_flag := false
  memory := fun a => if 0x50 ≤ a ∧ a < 0x50 + 80 then sprite_font.getD (a - 0x50) 0 else 0
  V := fun _ => 0
  I := 0
  pc := 0x200
  stack := fun _ => 0
  sp := 0
  delayTimer := 0
  soundTimer := 0
  gfx := fun _ => 0
  key := fun _ => 0

/-- `Chip8::clear_video_buffer`: `std::fill` of `gfx` with 0. -/
def clear_video_buffer (s : Chip8) : Chip8 :=
  {s with gfx := fun _ => 0}

/-- `Chip8::load_rom`: rejects a ROM longer than
`CHIP8_MEMORY_SIZE - CHIP8_START_PROGRAM_ADDRESS = 3584` bytes, otherwise
copies the bytes to `memory[0x200..]` and records `loaded_rom_size`.
(`none` also stands for a file that cannot be opened.) -/
def load_rom (rom : List Nat) (s : Chip8) : Option Chip8 :=
  if 4096 - 0x200 < rom.length then none
  else some {s with
    memory := fun a =>
      if 0x200 ≤ a ∧ a < 0x200 + rom.length then rom.getD (a - 0x200) 0 else s.memory a,
    loaded_rom_size := rom.length}

/-- `Chip8::set_key`: stores `value` at `key[key_index]` when the index is
below `CHIP8_KEYBOARD_SIZE = 16`, otherwise only reports an error. -/
def set_key (key_index value : Nat) (s : Chip8) : Chip8 :=
  if key_index < 16 then {s with key := upd s.key key_index value} else s

/-- Sprite bit `col` of a sprite byte: `(sprite_byte >> (7 - col)) & 0x01`. -/
def spritePixel (byte col : Nat) : Nat := byte / 2 ^ (7 - col) % 2

/-- `pixel_index = ((y_coord + row) % 32) * 64 + (x_coord + col) % 64`
of `Chip8::draw_sprite`. -/
def pixelIndex (xc yc row col : Nat) : Nat :=
  (yc + row) % 32 * 64 + (xc + col) % 64

/-- The `(pixel_index, sprite_pixel)` pairs produced by the inner column
loop of `Chip8::draw_sprite` for one sprite row. -/
def drawOpsRow (mem : Nat → Nat) (I xc yc row : Nat) : List (Nat × Nat) :=
  (List.range 8).map fun col => (pixelIndex xc yc row col, spritePixel (mem (I + row)) col)

/-- The `(pixel_index, sprite_pixel)` pairs of the full row loop of
`Chip8::draw_sprite`, in execution order; the `break` on
`y_coord + row >= 32` cuts off all remaining rows before the row's
sprite byte `memory[I + row]` is read. -/
def drawOps (mem : Nat → Nat) (I xc yc : Nat) : List Nat → List (Nat × Nat)
  | [] => []
  | row :: rest =>
    if 32 ≤ yc + row then []
    else drawOpsRow mem I xc yc row ++ drawOps mem I xc yc rest

/-- The per-pixel body of `Chip8::draw_sprite`, run over a list of
`(pixel_index, sprite_pixel)` pairs: `vf` threads the value of `V[0xF]`
(`if (gfx[pixel_index] == 1 && sprite_pixel == 1) V[0xF] = 1;`
`gfx[pixel_index] ^= sprite_pixel;`). -/
def toggleRun : (Nat → Nat) → Nat → List (Nat × Nat) → (Nat → Nat) × Nat
  | g, vf, [] => (g, vf)
  | g, vf, (i, b) :: rest =>
    toggleRun (upd g i (g i ^^^ b)) (if g i = 1 ∧ b = 1 then 1 else vf) rest

/-- `Chip8::draw_sprite`: `V[0xF] = 0`, coordinates reduced
`x_coord %= 64`, `y_coord %= 32`, then the row/column loops, and
finally `draw_flag = true`. -/
def draw_sprite (s : Chip8) (x_coord y_coord height : Nat) : Chip8 :=
  let xc := x_coord % 64
  let yc := y_coord % 32
  let r := toggleRun s.gfx 0 (drawOps s.memory s.I xc yc (List.range height))
  {s with gfx := r.1, V := upd s.V 15 r.2, draw_flag := true}

/-- Outcome of the decode/execute `switch`: `aborted` marks the error paths
that `return` from `emulate_cycle` before the timer code, `done` falls
through to the timer decrement. -/
inductive ExecResult where
  | aborted (s : Chip8)
  | done (s : Chip8)

/-- The state carried by either `ExecResult` outcome. -/
def ExecResult.state : ExecResult → Chip8
  | .aborted s => s
  | .done s => s

/-- The inner `switch (opcode)` of the `0x0000` family: `00E0` (CLS),
`00EE` (RET, with `return` on stack underflow), default = report only. -/
def exec0 (opcode : Nat) (s : Chip8) : ExecResult :=
  if opcode = 0x00E0 then .done (clear_video_buffer s)
  else if opcode = 0x00EE then
    if s.sp = 0 then .aborted s
    else .done {s with sp := s.sp - 1, pc := s.stack (s.sp - 1)}
  else .done s

/-- The inner `switch (opcode & 0x000F)` of the `0x8000` ALU family.
`V[x] -= V[y]` and the other 8-bit wraparound writes are written as
`(... + 256 - b % 256) % 256` / `... % 256`, which agrees with the
`uint8_t` arithmetic of the source on byte-valued cells. -/
def exec8 (opcode : Nat) (s : Chip8) : ExecResult :=
  let x := opcode / 256 % 16
  let y := opcode / 16 % 16
  match opcode % 16 with
  | 0x0 => .done {s with V := upd s.V x (s.V y)}
  | 0x1 => .done {s with V := upd s.V x (s.V x ||| s.V y)}
  | 0x2 => .done {s with V := upd s.V x (s.V x &&& s.V y)}
  | 0x3 => .done {s with V := upd s.V x (s.V x ^^^ s.V y)}
  | 0x4 =>
    let sum := s.V x + s.V y
    let V1 := upd s.V 15 (if 255 < sum then 1 else 0)
    .done {s with V := upd V1 x (sum % 256)}
  | 0x5 =>
    let V1 := upd s.V 15 (if s.V y < s.V x then 1 else 0)
    .done {s with V := upd V1 x ((V1 x + 256 - V1 y % 256) % 256)}
  | 0x6 =>
    let V1 := upd s.V 15 (s.V x % 2)
    .done {s with V := upd V1 x (V1 x / 2)}
  | 0x7 =>
    let V1 := upd s.V 15 (if s.V x < s.V y then 1 else 0)
    .done {s with V := upd V1 x ((V1 y + 256 - V1 x % 256) % 256)}
  | 0xE =>
    let V1 := upd s.V 15 (s.V x / 128 % 2)
    .done {s with V := upd V1 x (V1 x * 2 % 256)}
  | _ => .done s

/-- The inner `switch (opcode & 0x00FF)` of the `0xE000` family:
`Ex9E` (SKP) and `ExA1` (SKNP) read `key[V[x]]` with no bound check on
`V[x]`. -/
def execE (opcode : Nat) (s : Chip8) : ExecResult :=
  let x := opcode / 256 % 16
  match opcode % 256 with
  | 0x9E => if s.key (s.V x) ≠ 0 then .done {s with pc := (s.pc + 2) % 65536} else .done s
  | 0xA1 => if s.key (s.V x) = 0 then .done {s with pc := (s.pc + 2) % 65536} else .done s
  | _ => .done s

/-- The register-dump loop of `Fx55`:
`for (i = 0; i <= x; ++i) memory[I + i] = V[i];`. -/
def storeRegs (mem V : Nat → Nat) (I : Nat) : List Nat → (Nat → Nat)
  | [] => mem
  | i :: rest => storeRegs (upd mem (I + i) (V i)) V I rest

/-- The register-load loop of `Fx65`:
`for (i = 0; i <= x; ++i) V[i] = memory[I + i];`. -/
def loadRegs (V mem : Nat → Nat) (I : Nat) : List Nat → (Nat → Nat)
  | [] => V
  | i :: rest => loadRegs (upd V i (mem (I + i))) mem I rest

/-- The inner `switch (opcode & 0x00FF)` of the `0xF000` family.
`Fx0A` scans `key[0..15]` in ascending order (`List.find?` mirrors the
`break` of the first pressed key) and rewinds `pc -= 2` when none is
pressed; `Fx1E` clamps `I` back to 0 when `I + V[x]` reaches the memory
size; `Fx33` writes the BCD digits at `I`, `I+1`, `I+2` with no bound
check; `Fx55`/`Fx65` `return` (abort) when `I + x` reaches the memory
size, before any byte is transferred. -/
def execF (opcode : Nat) (s : Chip8) : ExecResult :=
  let x := opcode / 256 % 16
  match opcode % 256 with
  | 0x07 => .done {s with V := upd s.V x s.delayTimer}
  | 0x0A =>
    match (List.range 16).find? (fun i => s.key i != 0) with
    | some i => .done {s with V := upd s.V x i}
    | none => .done {s with pc := (s.pc + 65534) % 65536}
  | 0x15 => .done {s with delayTimer := s.V x}
  | 0x18 => .done {s with soundTimer := s.V x}
  | 0x1E =>
    let I1 := (s.I + s.V x) % 65536
    if 4096 ≤ I1 then .done {s with I := 0} else .done {s with I := I1}
  | 0x29 =>
    if 16 ≤ s.V x then .done {s with I := 0}
    else .done {s with I := 0x50 + s.V x * 5}
  | 0x33 =>
    let value := s.V x
    let m1 := upd s.memory s.I (value / 100)
    let m2 := upd m1 (s.I + 1) (value / 10 % 10)
    let m3 := upd m2 (s.I + 2) (value % 10)
    .done {s with memory := m3}
  | 0x55 =>
    if 4096 ≤ s.I + x then .aborted s
    else .done {s with memory := storeRegs s.memory s.V s.I (List.range (x + 1))}
  | 0x65 =>
    if 4096 ≤ s.I + x then .aborted s
    else .done {s with V := loadRegs s.V s.memory s.I (List.range (x + 1))}
  | _ => .done s

/-- The outer `switch (opcode & 0xF000)` of `Chip8::emulate_cycle`,
applied to the state with `pc` already advanced past the instruction.
`rnd` stands for the value of `rand()` consumed by `Cxnn`.  Note the
source has no `case 0x9000:`, so `9xy0` lands in the default branch. -/
def execute (rnd opcode : Nat) (s : Chip8) : ExecResult :=
  match opcode / 4096 % 16 with
  | 0x0 => exec0 opcode s
  | 0x1 => .done {s with pc := opcode % 4096}
  | 0x2 =>
    if 16 ≤ s.sp then .aborted s
    else .done {s with stack := upd s.stack s.sp s.pc, sp := s.sp + 1, pc := opcode % 4096}
  | 0x3 =>
    let x := opcode / 256 % 16
    if s.V x = opcode % 256 then .done {s with pc := (s.pc + 2) % 65536} else .done s
  | 0x4 =>
    let x := opcode / 256 % 16
    if s.V x ≠ opcode % 256 then .done {s with pc := (s.pc + 2) % 65536} else .done s
  | 0x5 =>
    let x := opcode / 256 % 16
    let y := opcode / 16 % 16
    if s.V x = s.V y then .done {s with pc := (s.pc + 2) % 65536} else .done s
  | 0x6 =>
    let x := opcode / 256 % 16
    .done {s with V := upd s.V x (opcode % 256)}
  | 0x7 =>
    let x := opcode / 256 % 16
    .done {s with V := upd s.V x ((s.V x + opcode % 256) % 256)}
  | 0x8 => exec8 opcode s
  | 0xA => .done {s with I := opcode % 4096}
  | 0xB => .done {s with pc := (s.V 0 + opcode % 4096) % 65536}
  | 0xC =>
    let x := opcode / 256 % 16
    .done {s with V := upd s.V x ((rnd % 256) &&& (opcode % 256))}
  | 0xD =>
    let x := opcode / 256 % 16
    let y := opcode / 16 % 16
    .done (draw_sprite s (s.V x) (s.V y) (opcode % 16))
  | 0xE => execE opcode s
  | 0xF => execF opcode s
  | _ => .done s

/-- The opcode fetch `(memory[pc] << 8) | memory[pc + 1]` (the `% 256`
reductions express that the two cells are `uint8_t`). -/
def fetchOp (s : Chip8) : Nat :=
  s.memory s.pc % 256 * 256 + s.memory (s.pc + 1) % 256

/-- The trailing timer code of `Chip8::emulate_cycle`:
`if (delayTimer > 0) delayTimer--;` and likewise for `soundTimer`. -/
def tickTimers (s : Chip8) : Chip8 :=
  {s with
    delayTimer := if 0 < s.delayTimer then s.delayTimer - 1 else s.delayTimer,
    soundTimer := if 0 < s.soundTimer then s.soundTimer - 1 else s.soundTimer}

/-- `Chip8::emulate_cycle`: guard `pc >= CHIP8_MEMORY_SIZE - 1`, fetch,
`pc += 2`, dispatch, and — only on the non-`return` paths — the timer
decrement. -/
def emulate_cycle (rnd : Nat) (s : Chip8) : Chip8 :=
  if 4095 ≤ s.pc then s
  else
    match execute rnd (fetchOp s) {s with pc := (s.pc + 2) % 65536} with
    | .aborted t => t
    | .done t => tickTimers t

/-- States reachable from construction, through at most one ROM load,
interpreter steps (`rnd` ranges over the values `rand()` may produce),
and external key updates. -/
inductive Reachable : Chip8 → Prop where
  | construct : Reachable Chip8.init
  | load : ∀ rom s, load_rom rom Chip8.init = some s → Reachable s
  | step : ∀ rnd s t, Reachable s → emulate_cycle rnd s = t → Reachable t
  | setKey : ∀ k v s t, Reachable s → set_key k v s = t → Reachable t

/-- The dispatch part of one `emulate_cycle` invocation: the `ExecResult`
of the decode/execute switch on the fetched opcode, from the
pc-advanced state. -/
def dispatchResult (rnd : Nat) (s : Chip8) : ExecResult :=
  execute rnd (fetchOp s) {s with pc := (s.pc + 2) % 65536}

/-- `n` interpreter steps with a fixed `rand()` oracle value. -/
def steps (rnd : Nat) : Nat → Chip8 → Chip8
  | 0, s => s
  | n + 1, s => steps rnd n (emulate_cycle rnd s)

/-! ## Concrete programs and states used as explicit inputs -/

/-- ROM for C1: `LD V0,0xEA` (V0 = 234), `LD I,0xFFF`, `LD B,V0` (BCD). -/
def c1_rom : List Nat := [0x60, 0xEA, 0xAF, 0xFF, 0xF0, 0x33]

/-- The machine right after construction and loading `c1_rom`. -/
def c1_s0 : Chip8 := (load_rom c1_rom Chip8.init).getD Chip8.init

/-- ROM for C2: the single instruction `00E0` (CLS). -/
def c2_rom : List Nat := [0x00, 0xE0]

/-- The machine right after construction and loading `c2_rom`. -/
def c2_s0 : Chip8 := (load_rom c2_rom Chip8.init).getD Chip8.init

/-- A state about to execute `00EE` (RET) with an empty stack and
nonzero timers. -/
def c3_s0 : Chip8 :=
  {Chip8.init with
    memory := fun a => if a = 0x200 then 0x00 else if a = 0x201 then 0xEE else 0,
    delayTimer := 5,
    soundTimer := 7}

/-- ROM for the C4 counterexample: `LD VF,200`, `LD V0,100`,
`ADD VF,V0` (opcode `8F04`, so x = 15). -/
def c4_rom : List Nat := [0x6F, 0xC8, 0x60, 0x64, 0x8F, 0x04]

/-- The machine right after construction and loading `c4_rom`. -/
def c4_s0 : Chip8 := (load_rom c4_rom Chip8.init).getD Chip8.init

/-- ROM for the C4 witness: `LD V1,100`, `LD V0,200`, `ADD V1,V0`
(opcode `8104`, x = 1 ≠ 15). -/
def c4w_rom : List Nat := [0x61, 0x64, 0x60, 0xC8, 0x81, 0x04]

/-- The machine right after construction and loading `c4w_rom`. -/
def c4w_s0 : Chip8 := (load_rom c4w_rom Chip8.init).getD Chip8.init

/-- ROM for C6: the single instruction `CALL 0x200`, which pushes
`0x202` and jumps back to itself forever. -/
def c6_rom : List Nat := [0x22, 0x00]

/-- The machine right after construction and loading `c6_rom`. -/
def c6_s0 : Chip8 := (load_rom c6_rom Chip8.init).getD Chip8.init

/-- ROM for the C5 witness, in-range half: `LD V0,5`, `LD V1,7`,
`LD I,0x300`, `LD [I],V1` (`F155`). -/
def c5a_rom : List Nat := [0x60, 0x05, 0x61, 0x07, 0xA3, 0x00, 0xF1, 0x55]

/-- The machine right after construction and loading `c5a_rom`. -/
def c5a_s0 : Chip8 := (load_rom c5a_rom Chip8.init).getD Chip8.init

/-- ROM for the C5 witness, out-of-range half: `LD I,0xFFF`,
`LD VF,[I]` (`FF65`, so `I + x = 4110 ≥ 4096`). -/
def c5b_rom : List Nat := [0xAF, 0xFF, 0xFF, 0x65]

/-- The machine right after construction and loading `c5b_rom`. -/
def c5b_s0 : Chip8 := (load_rom c5b_rom Chip8.init).getD Chip8.init

/-- ROM for C8: the single instruction `F00A` (`LD V0,K`). -/
def c8_rom : List Nat := [0xF0, 0x0A]

/-- The machine right after construction and loading `c8_rom`
(no key pressed). -/
def c8a_s0 : Chip8 := (load_rom c8_rom Chip8.init).getD Chip8.init

/-- The same machine after the external driver presses key 3. -/
def c8b_s0 : Chip8 := set_key 3 1 c8a_s0

/-- ROM for C10: `LD V0,0xFF`, then `SKP V0` (`E09E`), which indexes
`key[255]`. -/
def c10_rom : List Nat := [0x60, 0xFF, 0xE0, 0x9E]

/-- The machine right after construction and loading `c10_rom`. -/
def c10_s0 : Chip8 := (load_rom c10_rom Chip8.init).getD Chip8.init

/-! ## Basic lemmas about the embedding -/

theorem upd_self (f : Nat → Nat) (i v : Nat) : upd f i v i = v := by
  simp [upd]

theorem upd_ne (f : Nat → Nat) {i j : Nat} (v : Nat) (h : j ≠ i) : upd f i v j = f j := by
  simp [upd, h]

theorem execute_case0 (rnd opcode : Nat) (s : Chip8) (h : opcode / 4096 % 16 = 0x0) :
    execute rnd opcode s = exec0 opcode s := by
  unfold execute; rw [h]

theorem execute_case2 (rnd opcode : Nat) (s : Chip8) (h : opcode / 4096 % 16 = 0x2) :
    execute rnd opcode s =
      if 16 ≤ s.sp then .aborted s
      else .done {s with stack := upd s.stack s.sp s.pc, sp := s.sp + 1, pc := opcode % 4096} := by
  unfold execute; rw [h]

theorem execute_case8 (rnd opcode : Nat) (s : Chip8) (h : opcode / 4096 % 16 = 0x8) :
    execute rnd opcode s = exec8 opcode s := by
  unfold execute; rw [h]

theorem execute_caseE (rnd opcode : Nat) (s : Chip8) (h : opcode / 4096 % 16 = 0xE) :
    execute rnd opcode s = execE opcode s := by
  unfold execute; rw [h]

theorem execute_caseF (rnd opcode : Nat) (s : Chip8) (h : opcode / 4096 % 16 = 0xF) :
    execute rnd opcode s = execF opcode s := by
  unfold execute; rw [h]

theorem exec8_case4 (opcode : Nat) (s : Chip8) (h : opcode % 16 = 0x4) :
    exec8 opcode s = .done {s with V := upd (upd s.V 15 (if 255 < s.V (opcode / 256 % 16) + s.V (opcode / 16 % 16) then 1 else 0)) (opcode / 256 % 16) ((s.V (opcode / 256 % 16) + s.V (opcode / 16 % 16)) % 256)} := by
  unfold exec8; rw [h]

theorem execF_case0A_none (opcode : Nat) (s : Chip8) (h : opcode % 256 = 0x0A)
    (hk : (List.range 16).find? (fun i => s.key i != 0) = none) :
    execF opcode s = .done {s with pc := (s.pc + 65534) % 65536} := by
  unfold execF; rw [h, hk]

theorem execF_case0A_some (opcode : Nat) (s : Chip8) (k : Nat) (h : opcode % 256 = 0x0A)
    (hk : (List.range 16).find? (fun i => s.key i != 0) = some k) :
    execF opcode s = .done {s with V := upd s.V (opcode / 256 % 16) k} := by
  unfold execF; rw [h, hk]

theorem execF_case55 (opcode : Nat) (s : Chip8) (h : opcode % 256 = 0x55) :
    execF opcode s =
      if 4096 ≤ s.I + opcode / 256 % 16 then .aborted s
      else .done {s with
        memory := storeRegs s.memory s.V s.I (List.range (opcode / 256 % 16 + 1))} := by
  unfold execF; rw [h]

theorem execF_case65 (opcode : Nat) (s : Chip8) (h : opcode % 256 = 0x65) :
    execF opcode s =
      if 4096 ≤ s.I + opcode / 256 % 16 then .aborted s
      else .done {s with
        V := loadRegs s.V s.memory s.I (List.range (opcode / 256 % 16 + 1))} := by
  unfold execF; rw [h]

/-- Every `return` (abort) path of the decode/execute switch hands back the
state it received, unmodified. -/
theorem execute_aborted_eq (rnd opcode : Nat) (s t : Chip8)
    (h : execute rnd opcode s = .aborted t) : t = s := by
  simp only [execute, exec0, exec8, execE, execF] at h
  repeat' split at h
  all_goals first
    | (injection h with hh; exact hh.symm)
    | injection h

/-! ## C2 — 00E0 (CLS) -/

/-- C2, counterexample: from a freshly loaded machine whose first
instruction is `00E0` and whose redraw flag is false, executing the CLS
step leaves the redraw flag false — the claim says CLS sets it to true.
(`clear_video_buffer` never touches `draw_flag`; only `draw_sprite`
sets it.) -/
theorem c2_cls_redraw_cex :
    fetchOp c2_s0 = 0x00E0 ∧ c2_s0.draw_flag = false ∧
    (emulate_cycle 0 c2_s0).draw_flag = false ∧
    ¬ (emulate_cycle 0 c2_s0).draw_flag = true := by
  decide

/-- C2, amended: executing opcode `00E0` (CLS) sets every pixel of the
framebuffer to zero and leaves the redraw flag unchanged (it is not set
by CLS). -/
theorem c2_cls_amended (rnd : Nat) (s : Chip8) (hpc : s.pc < 4095)
    (hop : fetchOp s = 0x00E0) :
    (emulate_cycle rnd s).gfx = (fun _ => 0) ∧
    (emulate_cycle rnd s).draw_flag = s.draw_flag := by
  unfold emulate_cycle
  rw [if_neg (by omega), hop]
  exact ⟨rfl, rfl⟩

/-- C2, witness: the amended theorem applied to the concrete loaded
machine `c2_s0`. -/
theorem c2_cls_amended_witness :
    (emulate_cycle 0 c2_s0).gfx = (fun _ => 0) ∧
    (emulate_cycle 0 c2_s0).draw_flag = c2_s0.draw_flag := by
  exact c2_cls_amended 0 c2_s0 (by decide) (by decide)

/-! ## C3 — timer decrement per step -/

/-- C3, counterexample: a step that fails with stack underflow on RET
(`00EE` with `sp = 0`) leaves both timers undecremented (the `return`
skips the timer code), contradicting the claim that the timers are
decremented regardless, including on such steps. -/
theorem c3_timers_cex :
    fetchOp c3_s0 = 0x00EE ∧ c3_s0.sp = 0 ∧
    c3_s0.delayTimer = 5 ∧ c3_s0.soundTimer = 7 ∧
    (emulate_cycle 0 c3_s0).delayTimer = 5 ∧
    (emulate_cycle 0 c3_s0).soundTimer = 7 := by
  decide

/-- C3, amended: on a step whose fetch succeeds, if dispatch aborts
early (stack underflow on RET, stack overflow on CALL, or an
out-of-range Fx55/Fx65) both timers are left unchanged; on every other
step each timer is decremented by one if nonzero and left at zero
otherwise (relative to its post-dispatch value). -/
theorem c3_timers_amended (rnd : Nat) (s : Chip8) (hpc : s.pc < 4095) :
    (∀ t, dispatchResult rnd s = .aborted t →
       (emulate_cycle rnd s).delayTimer = s.delayTimer ∧
       (emulate_cycle rnd s).soundTimer = s.soundTimer) ∧
    (∀ t, dispatchResult rnd s = .done t →
       (emulate_cycle rnd s).delayTimer =
         (if 0 < t.delayTimer then t.delayTimer - 1 else t.delayTimer) ∧
       (emulate_cycle rnd s).soundTimer =
         (if 0 < t.soundTimer then t.soundTimer - 1 else t.soundTimer)) := by
  have he : emulate_cycle rnd s =
      match dispatchResult rnd s with
      | .aborted t => t
      | .done t => tickTimers t := by
    unfold emulate_cycle dispatchResult
    rw [if_neg (by omega)]
  constructor
  · intro t ht
    have h2 : t = {s with pc := (s.pc + 2) % 65536} :=
      execute_aborted_eq rnd (fetchOp s) _ t ht
    rw [he, ht]
    subst h2
    exact ⟨rfl, rfl⟩
  · intro t ht
    rw [he, ht]
    exact ⟨rfl, rfl⟩

/-- C3, witness: the amended theorem applied to the concrete
underflowing-RET state `c3_s0`: the timers stay at 5 and 7. -/
theorem c3_timers_amended_witness :
    (emulate_cycle 0 c3_s0).delayTimer = c3_s0.delayTimer ∧
    (emulate_cycle 0 c3_s0).soundTimer = c3_s0.soundTimer := by
  exact (c3_timers_amended 0 c3_s0 (by decide)).1 _ rfl

/-! ## C4 — ADD Vx,Vy (8xy4) -/

/-- C4, counterexample: with x = 15 (opcode `8F04`), VF = 200, V0 = 100,
the sum 300 exceeds 255 but after the step `V[15] = 44`, not the carry
value 1 the claim demands — the low byte of the sum overwrites the
carry flag when x = 15. -/
theorem c4_add_carry_cex :
    fetchOp (steps 0 2 c4_s0) = 0x8F04 ∧
    (steps 0 2 c4_s0).V 15 = 200 ∧ (steps 0 2 c4_s0).V 0 = 100 ∧
    255 < (steps 0 2 c4_s0).V 15 + (steps 0 2 c4_s0).V 0 ∧
    (steps 0 3 c4_s0).V 15 = 44 ∧ ¬ (steps 0 3 c4_s0).V 15 = 1 := by
  decide

/-- C4, amended: for register indices x ≠ y with x ≠ 15, executing
`ADD Vx,Vy` (8xy4) sets VF to 1 iff the unsigned sum exceeds 255 (else
to 0) and stores the sum mod 256 in Vx; when x = 15 the mod-256 result
overwrites the carry flag. -/
theorem c4_add_carry_amended (rnd : Nat) (s : Chip8) (hpc : s.pc < 4095)
    (hf : fetchOp s / 4096 % 16 = 0x8) (hl : fetchOp s % 16 = 0x4)
    (hxy : fetchOp s / 256 % 16 ≠ fetchOp s / 16 % 16)
    (hx15 : fetchOp s / 256 % 16 ≠ 15) :
    (emulate_cycle rnd s).V 15 =
      (if 255 < s.V (fetchOp s / 256 % 16) + s.V (fetchOp s / 16 % 16) then 1 else 0) ∧
    (emulate_cycle rnd s).V (fetchOp s / 256 % 16) =
      (s.V (fetchOp s / 256 % 16) + s.V (fetchOp s / 16 % 16)) % 256 := by
  unfold emulate_cycle
  rw [if_neg (by omega)]
  rw [execute_case8 rnd (fetchOp s) _ hf, exec8_case4 (fetchOp s) _ hl]
  dsimp only [tickTimers]
  constructor
  · rw [upd_ne _ _ (Ne.symm hx15), upd_self]
  · rw [upd_self]

/-- C4, witness: the amended theorem applied after `LD V1,100`,
`LD V0,200`: `ADD V1,V0` gives VF = 1 and V1 = 44. -/
theorem c4_add_carry_amended_witness :
    (emulate_cycle 0 (steps 0 2 c4w_s0)).V 15 = 1 ∧
    (emulate_cycle 0 (steps 0 2 c4w_s0)).V 1 = 44 := by
  have h := c4_add_carry_amended 0 (steps 0 2 c4w_s0) (by decide) (by decide)
    (by decide) (by decide) (by decide)
  constructor
  · rw [h.1]; decide
  · rw [show (1 : Nat) = fetchOp (steps 0 2 c4w_s0) / 256 % 16 from by decide, h.2]; decide

/-! ## C6 — CALL (2nnn) at full stack -/

/-- C6: executing CALL (high nibble 2) with the stack pointer at
capacity 16 changes nothing but the already-advanced program counter:
the 16 stored return addresses, the stack pointer, the V registers and
the index register are all left unchanged, and the early `return`
(which also skips the timer decrement) marks the reported overflow. -/
theorem c6_call_overflow (rnd : Nat) (s : Chip8) (hpc : s.pc < 4095)
    (hop : fetchOp s / 4096 % 16 = 0x2) (hsp : s.sp = 16) :
    emulate_cycle rnd s = {s with pc := (s.pc + 2) % 65536} := by
  unfold emulate_cycle
  rw [if_neg (by omega)]
  rw [execute_case2 rnd (fetchOp s) _ hop]
  have h16 : 16 ≤ ({s with pc := (s.pc + 2) % 65536} : Chip8).sp := by
    simp [hsp]
  rw [if_pos h16]

/-- C6, witness: on the self-calling ROM `c6_rom`, 16 CALLs fill the
stack with return address `0x202`; the theorem applies to the 17th CALL,
which reports overflow and leaves all 16 entries and `sp` intact. -/
theorem c6_call_overflow_witness :
    (steps 0 16 c6_s0).sp = 16 ∧
    emulate_cycle 0 (steps 0 16 c6_s0) =
      {steps 0 16 c6_s0 with pc := ((steps 0 16 c6_s0).pc + 2) % 65536} ∧
    (emulate_cycle 0 (steps 0 16 c6_s0)).sp = 16 ∧
    (emulate_cycle 0 (steps 0 16 c6_s0)).stack 0 = 0x202 ∧
    (emulate_cycle 0 (steps 0 16 c6_s0)).stack 15 = 0x202 ∧
    (emulate_cycle 0 (steps 0 16 c6_s0)).pc = 0x202 := by
  refine ⟨by decide,
    c6_call_overflow 0 (steps 0 16 c6_s0) (by decide) (by decide) (by decide),
    by decide, by decide, by decide, by decide⟩

/-! ## Loop characterizations for Fx55 / Fx65 -/

theorem storeRegs_append (mem V : Nat → Nat) (I : Nat) (l1 l2 : List Nat) :
    storeRegs mem V I (l1 ++ l2) = storeRegs (storeRegs mem V I l1) V I l2 := by
  induction l1 generalizing mem with
  | nil => rfl
  | cons i rest ih => simp [storeRegs, ih]

/-- The `Fx55` loop writes `V[0..n]` to `memory[I..I+n]` and nothing else. -/
theorem storeRegs_range (V : Nat → Nat) (I : Nat) :
    ∀ (n : Nat) (mem : Nat → Nat) (a : Nat),
      storeRegs mem V I (List.range (n + 1)) a =
        if I ≤ a ∧ a ≤ I + n then V (a - I) else mem a
  | 0, mem, a => by
    simp only [show List.range 1 = [0] from rfl, storeRegs, upd]
    by_cases h : a = I + 0
    · rw [if_pos h, if_pos (by omega)]
      congr 1
      omega
    · rw [if_neg h, if_neg (by omega)]
  | n + 1, mem, a => by
    rw [List.range_succ, storeRegs_append]
    simp only [storeRegs, upd]
    by_cases h : a = I + (n + 1)
    · rw [if_pos h, if_pos (by omega)]
      congr 1
      omega
    · rw [if_neg h, storeRegs_range V I n mem a]
      split_ifs <;> first | rfl | omega

theorem loadRegs_append (mem : Nat → Nat) (I : Nat) (l1 l2 : List Nat) :
    ∀ V : Nat → Nat, loadRegs V mem I (l1 ++ l2) = loadRegs (loadRegs V mem I l1) mem I l2 := by
  induction l1 with
  | nil => intro V; rfl
  | cons i rest ih => intro V; simp [loadRegs, ih]

/-- The `Fx65` loop loads `memory[I..I+n]` into `V[0..n]` and nothing else. -/
theorem loadRegs_range (mem : Nat → Nat) (I : Nat) :
    ∀ (n : Nat) (V : Nat → Nat) (j : Nat),
      loadRegs V mem I (List.range (n + 1)) j =
        if j ≤ n then mem (I + j) else V j
  | 0, V, j => by
    simp only [show List.range 1 = [0] from rfl, loadRegs, upd]
    by_cases h : j = 0
    · rw [if_pos h, if_pos (by omega)]
      congr 1
      omega
    · rw [if_neg h, if_neg (by omega)]
  | n + 1, V, j => by
    rw [List.range_succ, loadRegs_append]
    simp only [loadRegs, upd]
    by_cases h : j = n + 1
    · rw [if_pos h, if_pos (by omega)]
      congr 1
      omega
    · rw [if_neg h, loadRegs_range mem I n V j]
      split_ifs <;> first | rfl | omega

/-! ## The key scan of Fx0A -/

theorem find?_range16_none (key : Nat → Nat) (h : ∀ i, i < 16 → key i = 0) :
    (List.range 16).find? (fun i => key i != 0) = none := by
  rw [List.find?_eq_none]
  intro x hx
  rw [List.mem_range] at hx
  simp [h x hx]

theorem find?_range16_some (key : Nat → Nat) (k : Nat) (hk : k < 16)
    (hkey : key k ≠ 0) (hmin : ∀ j, j < k → key j = 0) :
    (List.range 16).find? (fun i => key i != 0) = some k := by
  have hkey2 : (key k != 0) = true := by simpa using hkey
  have hmin2 : ∀ j, j < k → (key j != 0) = false := fun j hj => by simp [hmin j hj]
  clear hkey hmin
  interval_cases k <;>
    simp [show (List.range 16) = [0,1,2,3,4,5,6,7,8,9,10,11,12,13,14,15] from rfl,
      List.find?, hkey2, hmin2]

/-! ## C5 — Fx55 / Fx65 bulk register transfer -/

/-- C5: for a step whose fetched opcode is `Fx55` or `Fx65`: when
`I + x ≥ 4096` the step aborts (early `return`, which also skips the
timer decrement) leaving everything but the already-advanced program
counter unchanged — no memory byte is written and no register is
modified; when `I + x < 4096`, `Fx55` copies `V0..Vx` to
`memory[I..I+x]` inclusive (all other memory bytes unchanged, registers
unchanged) and `Fx65` copies `memory[I..I+x]` to `V0..Vx` inclusive
(all other registers unchanged, memory unchanged). -/
theorem c5_bulk_transfer (rnd : Nat) (s : Chip8) (hpc : s.pc < 4095)
    (hf : fetchOp s / 4096 % 16 = 0xF) :
    (fetchOp s % 256 = 0x55 →
       (4096 ≤ s.I + fetchOp s / 256 % 16 →
          emulate_cycle rnd s = {s with pc := (s.pc + 2) % 65536}) ∧
       (s.I + fetchOp s / 256 % 16 < 4096 →
          (emulate_cycle rnd s).V = s.V ∧
          (∀ a, s.I ≤ a → a ≤ s.I + fetchOp s / 256 % 16 →
             (emulate_cycle rnd s).memory a = s.V (a - s.I)) ∧
          (∀ a, a < s.I ∨ s.I + fetchOp s / 256 % 16 < a →
             (emulate_cycle rnd s).memory a = s.memory a))) ∧
    (fetchOp s % 256 = 0x65 →
       (4096 ≤ s.I + fetchOp s / 256 % 16 →
          emulate_cycle rnd s = {s with pc := (s.pc + 2) % 65536}) ∧
       (s.I + fetchOp s / 256 % 16 < 4096 →
          (emulate_cycle rnd s).memory = s.memory ∧
          (∀ i, i ≤ fetchOp s / 256 % 16 →
             (emulate_cycle rnd s).V i = s.memory (s.I + i)) ∧
          (∀ i, fetchOp s / 256 % 16 < i →
             (emulate_cycle rnd s).V i = s.V i))) := by
  unfold emulate_cycle
  rw [if_neg (by omega)]
  rw [execute_caseF rnd (fetchOp s) _ hf]
  constructor
  · intro h55
    rw [execF_case55 (fetchOp s) _ h55]
    constructor
    · intro hoob
      have hc : 4096 ≤ ({s with pc := (s.pc + 2) % 65536} : Chip8).I + fetchOp s / 256 % 16 := hoob
      rw [if_pos hc]
    · intro hin
      have hc : ¬ 4096 ≤ ({s with pc := (s.pc + 2) % 65536} : Chip8).I + fetchOp s / 256 % 16 := by
        show ¬ 4096 ≤ s.I + fetchOp s / 256 % 16
        omega
      rw [if_neg hc]
      dsimp only [tickTimers]
      refine ⟨rfl, ?_, ?_⟩
      · intro a ha1 ha2
        rw [storeRegs_range]
        rw [if_pos ⟨ha1, ha2⟩]
      · intro a ha
        rw [storeRegs_range]
        rw [if_neg (by omega)]
  · intro h65
    rw [execF_case65 (fetchOp s) _ h65]
    constructor
    · intro hoob
      have hc : 4096 ≤ ({s with pc := (s.pc + 2) % 65536} : Chip8).I + fetchOp s / 256 % 16 := hoob
      rw [if_pos hc]
    · intro hin
      have hc : ¬ 4096 ≤ ({s with pc := (s.pc + 2) % 65536} : Chip8).I + fetchOp s / 256 % 16 := by
        show ¬ 4096 ≤ s.I + fetchOp s / 256 % 16
        omega
      rw [if_neg hc]
      dsimp only [tickTimers]
      refine ⟨rfl, ?_, ?_⟩
      · intro i hi
        rw [loadRegs_range]
        rw [if_pos hi]
      · intro i hi
        rw [loadRegs_range]
        rw [if_neg (by omega)]

/-- C5, witness: after `LD V0,5`, `LD V1,7`, `LD I,0x300`, the
instruction `F155` writes 5 and 7 to memory 0x300/0x301 and leaves
0x302 alone; and `FF65` with `I = 0xFFF` aborts, changing only the
program counter. -/
theorem c5_bulk_transfer_witness :
    (emulate_cycle 0 (steps 0 3 c5a_s0)).memory 0x300 = 5 ∧
    (emulate_cycle 0 (steps 0 3 c5a_s0)).memory 0x301 = 7 ∧
    (emulate_cycle 0 (steps 0 3 c5a_s0)).memory 0x302 = 0 ∧
    emulate_cycle 0 (steps 0 1 c5b_s0) =
      {steps 0 1 c5b_s0 with pc := ((steps 0 1 c5b_s0).pc + 2) % 65536} := by
  have ha := ((c5_bulk_transfer 0 (steps 0 3 c5a_s0) (by decide) (by decide)).1
    (by decide)).2 (by decide)
  have hb := ((c5_bulk_transfer 0 (steps 0 1 c5b_s0) (by decide) (by decide)).2
    (by decide)).1 (by decide)
  refine ⟨?_, ?_, ?_, hb⟩
  · rw [ha.2.1 0x300 (by decide) (by decide)]; decide
  · rw [ha.2.1 0x301 (by decide) (by decide)]; decide
  · rw [ha.2.2 0x302 (Or.inr (by decide))]; decide

/-! ## C8 — Fx0A (LD Vx,K) -/

/-- C8: executing `Fx0A` with no key pressed leaves the program counter
net-unchanged across the step (the same instruction is refetched next
step) and leaves the whole V register file unchanged; with at least one
key pressed, `V[x]` receives the lowest-indexed pressed key and the
program counter advances by 2 past the instruction. -/
theorem c8_wait_key (rnd : Nat) (s : Chip8) (hpc : s.pc < 4095)
    (hf : fetchOp s / 4096 % 16 = 0xF) (hl : fetchOp s % 256 = 0x0A) :
    ((∀ i, i < 16 → s.key i = 0) →
       (emulate_cycle rnd s).pc = s.pc ∧ (emulate_cycle rnd s).V = s.V) ∧
    (∀ k, k < 16 → s.key k ≠ 0 → (∀ j, j < k → s.key j = 0) →
       (emulate_cycle rnd s).V (fetchOp s / 256 % 16) = k ∧
       (emulate_cycle rnd s).pc = s.pc + 2) := by
  unfold emulate_cycle
  rw [if_neg (by omega)]
  rw [execute_caseF rnd (fetchOp s) _ hf]
  constructor
  · intro hno
    rw [execF_case0A_none (fetchOp s) {s with pc := (s.pc + 2) % 65536} hl (find?_range16_none s.key hno)]
    dsimp only [tickTimers]
    exact ⟨by omega, rfl⟩
  · intro k hk hkey hmin
    rw [execF_case0A_some (fetchOp s) {s with pc := (s.pc + 2) % 65536} k hl (find?_range16_some s.key k hk hkey hmin)]
    dsimp only [tickTimers]
    refine ⟨upd_self _ _ _, by omega⟩

/-- C8, witness: on `F00A` with no key pressed the program counter
stays at 0x200 and the registers are untouched; after `set_key 3 1`
the same instruction stores 3 in V0 and moves on. -/
theorem c8_wait_key_witness :
    ((emulate_cycle 0 c8a_s0).pc = c8a_s0.pc ∧ (emulate_cycle 0 c8a_s0).V = c8a_s0.V) ∧
    ((emulate_cycle 0 c8b_s0).V 0 = 3 ∧ (emulate_cycle 0 c8b_s0).pc = c8b_s0.pc + 2) := by
  constructor
  · exact (c8_wait_key 0 c8a_s0 (by decide) (by decide) (by decide)).1 (by decide)
  · exact (c8_wait_key 0 c8b_s0 (by decide) (by decide) (by decide)).2 3
      (by decide) (by decide) (by decide)

/-! ## C9 — the index register stays below 4096 -/

/-- Every branch of the decode/execute switch keeps `I < 4096`:
`Annn` masks to 12 bits, `Fx1E` clamps to 0 at 4096, `Fx29` writes at
most `0x50 + 15*5`, and no other branch writes `I`. -/
theorem execute_I_lt (rnd opcode : Nat) (s : Chip8) (h : s.I < 4096) :
    (execute rnd opcode s).state.I < 4096 := by
  simp only [execute, exec0, exec8, execE, execF]
  repeat' split
  all_goals dsimp only [ExecResult.state, draw_sprite, clear_video_buffer]
  all_goals omega

/-- One interpreter step keeps `I < 4096`. -/
theorem emulate_cycle_I_lt (rnd : Nat) (s : Chip8) (h : s.I < 4096) :
    (emulate_cycle rnd s).I < 4096 := by
  unfold emulate_cycle
  split
  · exact h
  · have h2 := execute_I_lt rnd (fetchOp s) {s with pc := (s.pc + 2) % 65536} h
    cases hE : execute rnd (fetchOp s) {s with pc := (s.pc + 2) % 65536} with
    | aborted t =>
      rw [hE] at h2
      exact h2
    | done t =>
      rw [hE] at h2
      dsimp only [ExecResult.state] at h2
      dsimp only [tickTimers]
      exact h2

/-- C9: in every state reachable from construction via `load_rom`,
interpreter steps, and key updates, the index register `I` is strictly
below 4096. -/
theorem c9_index_register_invariant (s : Chip8) (h : Reachable s) : s.I < 4096 := by
  induction h with
  | construct => decide
  | load rom t hload =>
    unfold load_rom at hload
    split at hload
    · simp at hload
    · injection hload with h2
      rw [← h2]
      show Chip8.init.I < 4096
      decide
  | step rnd u t hu hstep ih =>
    rw [← hstep]
    exact emulate_cycle_I_lt rnd u ih
  | setKey k v u t hu hstep ih =>
    rw [← hstep]
    unfold set_key
    split
    · exact ih
    · exact ih

/-- C9, witness: the invariant theorem applied to the constructed
machine, whose index register is 0. -/
theorem c9_index_register_invariant_witness : Chip8.init.I < 4096 :=
  c9_index_register_invariant Chip8.init Reachable.construct

/-! ## C10 — SKP/SKNP key lookup bound -/

/-- C10, counterexample: the claim that every reachable SKP/SKNP step
has `V[x] < 16` is false — after `LD V0,0xFF` the machine is about to
execute `E09E` with `V[0] = 255`, so `key[V[x]]` indexes the 16-entry
key array at 255. -/
theorem c10_key_bounds_cex :
    ¬ (∀ s, Reachable s → s.pc < 4095 → fetchOp s / 4096 % 16 = 0xE →
         (fetchOp s % 256 = 0x9E ∨ fetchOp s % 256 = 0xA1) →
         s.V (fetchOp s / 256 % 16) < 16) := by
  intro hclaim
  have hreach : Reachable (steps 0 1 c10_s0) :=
    Reachable.step 0 c10_s0 _ (Reachable.load c10_rom c10_s0 rfl) rfl
  have hlt := hclaim (steps 0 1 c10_s0) hreach (by decide) (by decide) (Or.inl (by decide))
  have hv : (steps 0 1 c10_s0).V (fetchOp (steps 0 1 c10_s0) / 256 % 16) = 255 := by decide
  omega

/-- C10, amended: SKP/SKNP index the key array at the full 8-bit value
`V[x]` with no bound check, and a reachable state exists whose pending
SKP has `V[x] = 255 ≥ 16` — the lookup lands outside the 16-entry
array. -/
theorem c10_key_bounds_amended :
    Reachable (steps 0 1 c10_s0) ∧
    fetchOp (steps 0 1 c10_s0) = 0xE09E ∧
    fetchOp (steps 0 1 c10_s0) / 256 % 16 = 0 ∧
    16 ≤ (steps 0 1 c10_s0).V 0 := by
  exact ⟨Reachable.step 0 c10_s0 _ (Reachable.load c10_rom c10_s0 rfl) rfl,
    by decide, by decide, by decide⟩

/-! ## C1 — I-relative bounds checking by consumers -/

/-- C1, evidence of the missing check: from construction, load
`LD V0,0xEA; LD I,0xFFF; LD B,V0` and run three steps — the state
before the BCD step is reachable with `I = 4095`, and the BCD write of
`Fx33` stores the digits of 234 at addresses 4095, 4096 and 4097
without any bound check, the last two lying outside the 4096-byte
memory; the step completes normally (`pc` advances to 0x206). -/
theorem c1_bcd_oob_write :
    Reachable (steps 0 2 c1_s0) ∧
    (steps 0 2 c1_s0).I = 4095 ∧
    fetchOp (steps 0 2 c1_s0) = 0xF033 ∧
    (steps 0 3 c1_s0).memory 4095 = 2 ∧
    (steps 0 3 c1_s0).memory 4096 = 3 ∧
    (steps 0 3 c1_s0).memory 4097 = 4 ∧
    (steps 0 3 c1_s0).pc = 0x206 := by
  refine ⟨Reachable.step 0 (steps 0 1 c1_s0) _
    (Reachable.step 0 c1_s0 _ (Reachable.load c1_rom c1_s0 rfl) rfl) rfl,
    by decide, by decide, by decide, by decide, by decide, by decide⟩

/-! ## C7 — sprite draw: XOR involution and collision flag -/

/-- `g ^^^ 1 = 1` forces `g = 0`. -/
theorem xor_one_eq_one {g : Nat} (h : g ^^^ 1 = 1) : g = 0 := by
  have h2 := congrArg (· ^^^ 1) h
  simpa [Nat.xor_assoc] using h2

/-- A pixel index touched by no `(pixel_index, sprite_pixel)` pair is
unchanged by the draw loop. -/
theorem toggleRun_gfx_not_mem (ops : List (Nat × Nat)) :
    ∀ (g : Nat → Nat) (vf i : Nat), (∀ p ∈ ops, p.1 ≠ i) →
      (toggleRun g vf ops).1 i = g i := by
  induction ops with
  | nil => intro g vf i _; rfl
  | cons p rest ih =>
    intro g vf i h
    obtain ⟨pi, pb⟩ := p
    simp only [toggleRun]
    rw [ih _ _ _ (fun q hq => h q (List.mem_cons_of_mem _ hq))]
    exact upd_ne _ _ (fun he => h (pi, pb) (List.mem_cons_self _ _) he.symm)

/-- When all touched pixel indices are distinct, a pixel touched by the
pair `(i, b)` ends as its old value XOR `b`. -/
theorem toggleRun_gfx_mem (ops : List (Nat × Nat)) :
    ∀ (g : Nat → Nat) (vf i b : Nat), ((ops.map Prod.fst).Nodup) → (i, b) ∈ ops →
      (toggleRun g vf ops).1 i = g i ^^^ b := by
  induction ops with
  | nil => intro g vf i b _ h; cases h
  | cons p rest ih =>
    intro g vf i b hnd hmem
    obtain ⟨pi, pb⟩ := p
    have hpi : pi ∉ rest.map Prod.fst := (List.nodup_cons.mp hnd).1
    have hnd2 := (List.nodup_cons.mp hnd).2
    simp only [toggleRun]
    rcases List.mem_cons.mp hmem with heq | hmem2
    · obtain ⟨rfl, rfl⟩ : pi = i ∧ pb = b := by
        have h1 := congrArg Prod.fst heq
        have h2 := congrArg Prod.snd heq
        exact ⟨h1.symm, h2.symm⟩
      rw [toggleRun_gfx_not_mem rest _ _ _ ?_]
      · exact upd_self _ _ _
      · intro q hq he
        exact hpi (by rw [← he]; exact List.mem_map_of_mem Prod.fst hq)
    · have hq1 : i ≠ pi := by
        intro he
        exact hpi (by rw [he] at hmem2; exact List.mem_map_of_mem Prod.fst hmem2)
      rw [ih _ _ _ _ hnd2 hmem2]
      rw [upd_ne _ _ hq1]

/-- When all touched pixel indices are distinct, the collision flag
comes out 1 exactly if it started 1 or some pair with sprite bit 1 hits
a pixel that was already 1 at entry (the flag is sticky and each pixel
is read before it is toggled). -/
theorem toggleRun_vf (ops : List (Nat × Nat)) :
    ∀ (g : Nat → Nat) (vf : Nat), ((ops.map Prod.fst).Nodup) →
      ((toggleRun g vf ops).2 = 1 ↔ vf = 1 ∨ ∃ q ∈ ops, q.2 = 1 ∧ g q.1 = 1) := by
  induction ops with
  | nil => intro g vf _; simp [toggleRun]
  | cons p rest ih =>
    intro g vf hnd
    obtain ⟨pi, pb⟩ := p
    have hpi : pi ∉ rest.map Prod.fst := (List.nodup_cons.mp hnd).1
    have hnd2 := (List.nodup_cons.mp hnd).2
    simp only [toggleRun]
    rw [ih _ _ hnd2]
    constructor
    · rintro (hvf | ⟨q, hq, hq2, hq3⟩)
      · by_cases hc : g pi = 1 ∧ pb = 1
        · exact Or.inr ⟨(pi, pb), List.mem_cons_self _ _, hc.2, hc.1⟩
        · rw [if_neg hc] at hvf
          exact Or.inl hvf
      · have hq1 : q.1 ≠ pi := by
          intro he
          exact hpi (by rw [← he]; exact List.mem_map_of_mem Prod.fst hq)
        rw [upd_ne _ _ hq1] at hq3
        exact Or.inr ⟨q, List.mem_cons_of_mem _ hq, hq2, hq3⟩
    · rintro (hvf | ⟨q, hq, hq2, hq3⟩)
      · left
        split_ifs with hc
        · rfl
        · exact hvf
      · rcases List.mem_cons.mp hq with heq | hmem2
        · left
          rw [if_pos ?_]
          have h1 := congrArg Prod.fst heq
          have h2 := congrArg Prod.snd heq
          dsimp at h1 h2
          constructor
          · rw [← h1]; exact hq3
          · rw [← h2]; exact hq2
        · right
          have hq1 : q.1 ≠ pi := by
            intro he
            exact hpi (by rw [← he]; exact List.mem_map_of_mem Prod.fst hmem2)
          exact ⟨q, hmem2, hq2, by rw [upd_ne _ _ hq1]; exact hq3⟩

/-- Within the vertically-clipped region the pixel indices of a draw
are injective in `(row, col)`. -/
theorem pixelIndex_inj (xc yc row1 c1 row2 c2 : Nat)
    (h1 : yc + row1 < 32) (h2 : yc + row2 < 32) (hc1 : c1 < 8) (hc2 : c2 < 8)
    (he : pixelIndex xc yc row1 c1 = pixelIndex xc yc row2 c2) :
    row1 = row2 ∧ c1 = c2 := by
  unfold pixelIndex at he
  constructor <;> omega

theorem drawOpsRow_map_fst (mem : Nat → Nat) (I xc yc row : Nat) :
    (drawOpsRow mem I xc yc row).map Prod.fst =
      (List.range 8).map (fun c => pixelIndex xc yc row c) := by
  simp [drawOpsRow, List.map_map]

/-- Every pair the row loop produces comes from an in-range row of the
row list and a column below 8. -/
theorem mem_drawOps (mem : Nat → Nat) (I xc yc : Nat) :
    ∀ (rows : List Nat) (p : Nat × Nat), p ∈ drawOps mem I xc yc rows →
      ∃ row, row ∈ rows ∧ yc + row < 32 ∧ ∃ c, c < 8 ∧
        p = (pixelIndex xc yc row c, spritePixel (mem (I + row)) c) := by
  intro rows
  induction rows with
  | nil => intro p hp; cases hp
  | cons row rest ih =>
    intro p hp
    simp only [drawOps] at hp
    split at hp
    · cases hp
    · rename_i hrow
      rcases List.mem_append.mp hp with h1 | h2
      · simp only [drawOpsRow, List.mem_map] at h1
        obtain ⟨c, hc, rfl⟩ := h1
        rw [List.mem_range] at hc
        exact ⟨row, List.mem_cons_self _ _, by omega, c, hc, rfl⟩
      · obtain ⟨row2, hr2, hr3, c, hc, hp2⟩ := ih p h2
        exact ⟨row2, List.mem_cons_of_mem _ hr2, hr3, c, hc, hp2⟩

/-- For a duplicate-free row list the pixel indices a draw touches are
pairwise distinct. -/
theorem drawOps_nodup (mem : Nat → Nat) (I xc yc : Nat) :
    ∀ rows : List Nat, rows.Nodup → ((drawOps mem I xc yc rows).map Prod.fst).Nodup := by
  intro rows
  induction rows with
  | nil => intro _; simp [drawOps]
  | cons row rest ih =>
    intro hnd
    have hrow_notin : row ∉ rest := (List.nodup_cons.mp hnd).1
    have hnd2 := (List.nodup_cons.mp hnd).2
    simp only [drawOps]
    split
    · simp
    · rename_i hrow
      rw [List.map_append]
      apply List.Nodup.append
      · rw [drawOpsRow_map_fst]
        apply List.Nodup.map_on
        · intro c1 hc1 c2 hc2 he
          rw [List.mem_range] at hc1 hc2
          exact (pixelIndex_inj xc yc row c1 row c2 (by omega) (by omega) hc1 hc2 he).2
        · exact List.nodup_range 8
      · exact ih hnd2
      · rw [List.disjoint_left]
        intro a ha hb
        rw [drawOpsRow_map_fst, List.mem_map] at ha
        obtain ⟨c, hc, rfl⟩ := ha
        rw [List.mem_range] at hc
        rw [List.mem_map] at hb
        obtain ⟨p, hp, hpa⟩ := hb
        obtain ⟨row2, hr2, hr3, c2, hc2, rfl⟩ := mem_drawOps mem I xc yc rest p hp
        dsimp at hpa
        have := (pixelIndex_inj xc yc row2 c2 row c (by omega) (by omega) hc2 hc hpa).1
        exact hrow_notin (this ▸ hr2)

/-- C7: drawing the same sprite (same coordinates, same height, and the
sprite bytes at `memory[I..]`, which the draw does not modify) twice in
succession restores the framebuffer to its state before the first draw,
and the second draw leaves VF = 1 iff the first draw set at least one
pixel from 0 to 1. -/
theorem c7_draw_involution (s : Chip8) (x y n : Nat) :
    (draw_sprite (draw_sprite s x y n) x y n).gfx = s.gfx ∧
    ((draw_sprite (draw_sprite s x y n) x y n).V 15 = 1 ↔
       ∃ p, s.gfx p = 0 ∧ (draw_sprite s x y n).gfx p = 1) := by
  have hnd : ((drawOps s.memory s.I (x % 64) (y % 32) (List.range n)).map Prod.fst).Nodup :=
    drawOps_nodup s.memory s.I (x % 64) (y % 32) (List.range n) (List.nodup_range n)
  dsimp only [draw_sprite]
  constructor
  · funext i
    by_cases hi : ∃ b, (i, b) ∈ drawOps s.memory s.I (x % 64) (y % 32) (List.range n)
    · obtain ⟨b, hb⟩ := hi
      rw [toggleRun_gfx_mem _ _ _ _ _ hnd hb, toggleRun_gfx_mem _ _ _ _ _ hnd hb,
        Nat.xor_assoc, Nat.xor_self, Nat.xor_zero]
    · have hni : ∀ p ∈ drawOps s.memory s.I (x % 64) (y % 32) (List.range n), p.1 ≠ i := by
        intro p hp he
        exact hi ⟨p.2, by rw [← he]; exact hp⟩
      rw [toggleRun_gfx_not_mem _ _ _ _ hni, toggleRun_gfx_not_mem _ _ _ _ hni]
  · rw [upd_self]
    rw [toggleRun_vf _ _ _ hnd]
    constructor
    · rintro (h0 | ⟨q, hq, hq2, hq3⟩)
      · exact absurd h0 (by decide)
      · refine ⟨q.1, ?_, hq3⟩
        have hb := toggleRun_gfx_mem _ s.gfx 0 q.1 q.2 hnd hq
        rw [hb, hq2] at hq3
        exact xor_one_eq_one hq3
    · rintro ⟨p, hp0, hp1⟩
      right
      by_cases hin : ∃ b, (p, b) ∈ drawOps s.memory s.I (x % 64) (y % 32) (List.range n)
      · obtain ⟨b, hb⟩ := hin
        have h2 := toggleRun_gfx_mem _ s.gfx 0 p b hnd hb
        rw [hp0, Nat.zero_xor] at h2
        refine ⟨(p, b), hb, ?_, hp1⟩
        rw [← h2]
        exact hp1
      · exfalso
        have hni : ∀ q ∈ drawOps s.memory s.I (x % 64) (y % 32) (List.range n), q.1 ≠ p := by
          intro q hq he
          exact hin ⟨q.2, by rw [← he]; exact hq⟩
        rw [toggleRun_gfx_not_mem _ _ _ _ hni] at hp1
        rw [hp0] at hp1
        exact absurd hp1 (by decide)
